import Mathlib

/-!
Verification of the 32-bit PowerPC ABI classification engine
(`src/librustc_trans/trans/cabi_powerpc.rs`).

The engine classifies LLVM-level argument and return types for one
PowerPC calling convention: scalars are passed directly in registers,
aggregates are coerced to sequences of 32-bit integer chunks (with an
optional leading pad word), and oversized return values are passed
indirectly through a hidden struct-return pointer.

The embedding below mirrors the Rust source function by function.
LLVM types are modelled by the inductive `Ty`; the two extra
constructors `Void` and `Other` stand for LLVM type kinds outside the
closed algebra handled by the engine (Integer, Pointer, Float, Double,
Struct, Array).  A Rust `panic!` is modelled by `Except.error` carrying
the panic message.
-/

namespace Cabi

/-- LLVM types as the classifier observes them.  `Integer w` is an `iw`
integer type, `Struct fields packed` a (possibly packed) struct,
`Array elt len` a fixed-length array.  `Void` and `Other` model LLVM
type kinds outside the closed algebra of the six handled variants
(`Other` stands for any of Vector, Label, Function, ...). -/
inductive Ty : Type where
  | Integer : Nat → Ty
  | Pointer : Ty
  | Float : Ty
  | Double : Ty
  | Struct : List Ty → Bool → Ty
  | Array : Ty → Nat → Ty
  | Void : Ty
  | Other : Ty

/-- `fn align_up_to(off: uint, a: uint) -> uint { (off + a - 1) / a * a }` -/
def align_up_to (off a : Nat) : Nat :=
  (off + a - 1) / a * a

mutual

/-- `fn ty_align(ty: Type) -> uint` of the source: natural alignment in
bytes.  The catch-all arm `panic!("ty_size: unhandled type")` is modelled
by `Except.error`. -/
def ty_align : Ty → Except String Nat
  | .Integer w => .ok ((w + 7) / 8)
  | .Pointer => .ok 4
  | .Float => .ok 4
  | .Double => .ok 8
  | .Struct fields packed =>
      if packed then .ok 1 else ty_align_max fields 1
  | .Array elt _ => ty_align elt
  | .Void => .error "ty_size: unhandled type"
  | .Other => .error "ty_size: unhandled type"

/-- The fold `str_tys.iter().fold(1, |a, t| cmp::max(a, ty_align(*t)))`
over an unpacked struct's field list, threading the accumulator. -/
def ty_align_max : List Ty → Nat → Except String Nat
  | [], acc => .ok acc
  | t :: ts, acc => do
      let a ← ty_align t
      ty_align_max ts (max acc a)

end

/-- `fn align(off: uint, ty: Type) -> uint`: round `off` up to `ty`'s
natural alignment. -/
def align (off : Nat) (ty : Ty) : Except String Nat := do
  let a ← ty_align ty
  .ok (align_up_to off a)

mutual

/-- `fn ty_size(ty: Type) -> uint` of the source: size in bytes.  The
catch-all arm `panic!("ty_size: unhandled type")` is `Except.error`. -/
def ty_size : Ty → Except String Nat
  | .Integer w => .ok ((w + 7) / 8)
  | .Pointer => .ok 4
  | .Float => .ok 4
  | .Double => .ok 8
  | .Struct fields packed =>
      if packed then ty_size_sum fields 0
      else do
        let size ← ty_size_fields fields 0
        let a ← ty_align (.Struct fields packed)
        .ok (align_up_to size a)
  | .Array elt len => do
      let eltsz ← ty_size elt
      .ok (len * eltsz)
  | .Void => .error "ty_size: unhandled type"
  | .Other => .error "ty_size: unhandled type"

/-- The packed-struct fold `str_tys.iter().fold(0, |s, t| s + ty_size(*t))`. -/
def ty_size_sum : List Ty → Nat → Except String Nat
  | [], s => .ok s
  | t :: ts, s => do
      let sz ← ty_size t
      ty_size_sum ts (s + sz)

/-- The unpacked-struct fold
`str_tys.iter().fold(0, |s, t| align(s, *t) + ty_size(*t))`. -/
def ty_size_fields : List Ty → Nat → Except String Nat
  | [], s => .ok s
  | t :: ts, s => do
      let a ← ty_align t
      let sz ← ty_size t
      ty_size_fields ts (align_up_to s a + sz)

end

/-- The test `ty == Type::i1(ccx)` of the source: LLVM types are
interned per context, so pointer equality with `Type::i1` holds exactly
of the 1-bit integer type. -/
def is_i1 : Ty → Bool
  | .Integer 1 => true
  | _ => false

/-- `fn is_reg_ty(ty: Type) -> bool`: register-passable kinds.  Exactly
the source's match, whose `_ => false` arm covers Struct, Array and
every kind outside the closed algebra. -/
def is_reg_ty : Ty → Bool
  | .Integer _ => true
  | .Pointer => true
  | .Float => true
  | .Double => true
  | _ => false

/-- Calling-convention attribute markers (`StructRetAttribute`,
`ZExtAttribute`). -/
inductive Attr : Type where
  | StructRet : Attr
  | ZExt : Attr
  deriving DecidableEq, Repr

/-- The two classification shapes of an `ArgType`. -/
inductive ArgKind : Type where
  | direct : ArgKind
  | indirect : ArgKind
  deriving DecidableEq, Repr

/-- Modelled from the spec: `ArgType` of `trans::cabi` (its defining
module is not among the repository files here).  Per the spec's data
model, a classified value is tagged *Direct* or *Indirect* and carries
the original type, an optional coerced `cast` type, an optional leading
`pad` type, and an optional attribute; an *Indirect* value never has a
cast or pad. -/
structure ArgType : Type where
  kind : ArgKind
  ty : Ty
  cast : Option Ty
  pad : Option Ty
  attr : Option Attr

/-- Modelled from the spec: `ArgType::direct(ty, cast, pad, attr)`. -/
def ArgType.direct (ty : Ty) (cast pad : Option Ty) (attr : Option Attr) : ArgType :=
  ⟨ArgKind.direct, ty, cast, pad, attr⟩

/-- Modelled from the spec: `ArgType::indirect(ty, attr)` — no cast, no pad. -/
def ArgType.indirect (ty : Ty) (attr : Option Attr) : ArgType :=
  ⟨ArgKind.indirect, ty, none, none, attr⟩

/-- Modelled from the spec: `ArgType::is_indirect`. -/
def ArgType.is_indirect (a : ArgType) : Bool :=
  match a.kind with
  | ArgKind.indirect => true
  | ArgKind.direct => false

/-- `fn classify_ret_ty(ccx, ty) -> ArgType`. -/
def classify_ret_ty (ty : Ty) : ArgType :=
  if is_reg_ty ty then
    ArgType.direct ty none none
      (if is_i1 ty then some Attr.ZExt else none)
  else
    ArgType.indirect ty (some Attr.StructRet)

/-- `fn padding_ty(ccx, align: uint, offset: uint) -> Option<Type>`:
a 32-bit pad slot when `(align - 1) & offset > 0`. -/
def padding_ty (align offset : Nat) : Option Ty :=
  if (align - 1) &&& offset > 0 then some (Ty.Integer 32) else none

/-- `fn coerce_to_int(ccx, size: uint) -> Vec<Type>`: `size / 32` full
32-bit chunks, then one chunk of `size % 32` bits when the remainder is
nonzero. -/
def coerce_to_int (size : Nat) : List Ty :=
  List.replicate (size / 32) (Ty.Integer 32) ++
    (if size % 32 > 0 then [Ty.Integer (size % 32)] else [])

/-- `fn struct_ty(ccx, ty) -> Type`: the unpacked struct of the coercion
chunks for `ty`'s total bit size. -/
def struct_ty (ty : Ty) : Except String Ty := do
  let size ← ty_size ty
  .ok (Ty.Struct (coerce_to_int (size * 8)) false)

/-- `fn classify_arg_ty(ccx, ty, offset: &mut uint) -> ArgType`, with the
mutable offset made explicit: returns the classification together with
the updated offset. -/
def classify_arg_ty (ty : Ty) (offset : Nat) : Except String (ArgType × Nat) := do
  let orig_offset := offset
  let sz ← ty_size ty
  let size := sz * 8
  let a ← ty_align ty
  let al := min (max a 4) 8
  let offset1 := align_up_to offset al
  let offset2 := offset1 + align_up_to size (al * 8) / 8
  if is_reg_ty ty then
    let attr := if is_i1 ty then some Attr.ZExt else none
    .ok (ArgType.direct ty none none attr, offset2)
  else
    let cast ← struct_ty ty
    .ok (ArgType.direct ty (some cast) (padding_ty al orig_offset) none, offset2)

/-- The result of classifying one signature (`FnType` of `trans::cabi`):
the argument classifications in order plus the return classification. -/
structure FnType : Type where
  arg_tys : List ArgType
  ret_ty : ArgType

/-- The `for aty in atys` loop of `compute_abi_info`, threading the
running offset left to right. -/
def classify_args : List Ty → Nat → Except String (List ArgType × Nat)
  | [], offset => .ok ([], offset)
  | t :: ts, offset => do
      let (a, offset1) ← classify_arg_ty t offset
      let (rest, offset2) ← classify_args ts offset1
      .ok (a :: rest, offset2)

/-- `pub fn compute_abi_info(ccx, atys, rty, ret_def) -> FnType`. -/
def compute_abi_info (atys : List Ty) (rty : Ty) (ret_def : Bool) :
    Except String FnType := do
  let ret_ty :=
    if ret_def then classify_ret_ty rty
    else ArgType.direct Ty.Void none none none
  let sret := ret_ty.is_indirect
  let offset0 := if sret then 4 else 0
  let (arg_tys, _) ← classify_args atys offset0
  .ok ⟨arg_tys, ret_ty⟩

mutual

/-- Membership in the closed type algebra the spec describes: the six
handled kinds, nested, with LLVM's constraint that an integer type has
a positive bit width. -/
def wf : Ty → Bool
  | .Integer w => decide (1 ≤ w)
  | .Pointer => true
  | .Float => true
  | .Double => true
  | .Struct fields _ => wf_fields fields
  | .Array elt _ => wf elt
  | .Void => false
  | .Other => false

/-- `wf` on every field of a struct. -/
def wf_fields : List Ty → Bool
  | [] => true
  | t :: ts => wf t && wf_fields ts

end

/-- The bit width of a coercion chunk (every chunk `coerce_to_int`
produces is an integer type). -/
def chunk_width : Ty → Nat
  | .Integer w => w
  | _ => 0

/-- Structural induction principle for `Ty` that gives the inductive
hypothesis at every member of a struct's field list. -/
def ty_induction {motive : Ty → Prop}
    (hInt : ∀ w, motive (Ty.Integer w))
    (hPtr : motive Ty.Pointer)
    (hFlt : motive Ty.Float)
    (hDbl : motive Ty.Double)
    (hStr : ∀ fs p, (∀ t ∈ fs, motive t) → motive (Ty.Struct fs p))
    (hArr : ∀ e n, motive e → motive (Ty.Array e n))
    (hVd : motive Ty.Void)
    (hOth : motive Ty.Other) : ∀ ty, motive ty
  | Ty.Integer w => hInt w
  | Ty.Pointer => hPtr
  | Ty.Float => hFlt
  | Ty.Double => hDbl
  | Ty.Struct fs p =>
      hStr fs p (fun t ht =>
        have : sizeOf t < sizeOf (Ty.Struct fs p) := by
          have := List.sizeOf_lt_of_mem ht
          simp only [Ty.Struct.sizeOf_spec]
          omega
        ty_induction hInt hPtr hFlt hDbl hStr hArr hVd hOth t)
  | Ty.Array e n =>
      hArr e n (ty_induction hInt hPtr hFlt hDbl hStr hArr hVd hOth e)
  | Ty.Void => hVd
  | Ty.Other => hOth
termination_by ty => sizeOf ty

section HelperLemmas

/-- Binding a success in the `Except` monad applies the continuation. -/
@[simp]
theorem except_ok_bind {α β : Type} (a : α) (f : α → Except String β) :
    (Except.ok a : Except String α) >>= f = f a := rfl

/-- Binding a failure in the `Except` monad propagates the failure. -/
@[simp]
theorem except_error_bind {α β : Type} (e : String) (f : α → Except String β) :
    (Except.error e : Except String α) >>= f = Except.error e := rfl

/-- Rounding up never moves the offset down when the alignment is positive. -/
theorem le_align_up_to (off a : Nat) (h : 0 < a) : off ≤ align_up_to off a := by
  unfold align_up_to
  have hd := Nat.div_add_mod (off + a - 1) a
  have hm : (off + a - 1) % a < a := Nat.mod_lt _ h
  rw [Nat.mul_comm]
  omega

/-- Rounding up produces a multiple of the alignment. -/
theorem align_up_to_dvd (off a : Nat) : a ∣ align_up_to off a :=
  dvd_mul_left a _

/-- Rounding zero up yields zero, for any alignment. -/
theorem align_up_to_zero (a : Nat) : align_up_to 0 a = 0 := by
  unfold align_up_to
  rcases a with _ | n
  · rfl
  · have h1 : 0 + (n + 1) - 1 = n := by omega
    rw [h1, Nat.div_eq_of_lt (Nat.lt_succ_self n), Nat.zero_mul]

/-- The mask test against `4 - 1` computes the remainder modulo 4. -/
theorem mask_three_eq_mod (off : Nat) : 3 &&& off = off % 4 := by
  rw [Nat.and_comm]
  have h := Nat.and_pow_two_sub_one_eq_mod off 2
  norm_num at h
  exact h

/-- The mask test against `8 - 1` computes the remainder modulo 8. -/
theorem mask_seven_eq_mod (off : Nat) : 7 &&& off = off % 8 := by
  rw [Nat.and_comm]
  have h := Nat.and_pow_two_sub_one_eq_mod off 3
  norm_num at h
  exact h

/-- Well-formedness of a field list gives well-formedness of each field. -/
theorem wf_fields_mem {ts : List Ty} (h : wf_fields ts = true) :
    ∀ t ∈ ts, wf t = true := by
  induction ts with
  | nil => simp
  | cons t ts ih =>
      simp only [wf_fields, Bool.and_eq_true] at h
      intro u hu
      rcases List.mem_cons.mp hu with rfl | hmem
      · exact h.1
      · exact ih h.2 u hmem

/-- The alignment fold over a field list succeeds and never shrinks the
accumulator when every field's alignment succeeds. -/
theorem ty_align_max_ok (ts : List Ty) (acc : Nat)
    (h : ∀ t ∈ ts, ∃ a, ty_align t = Except.ok a ∧ 0 < a) :
    ∃ a, ty_align_max ts acc = Except.ok a ∧ acc ≤ a := by
  induction ts generalizing acc with
  | nil => exact ⟨acc, rfl, Nat.le_refl acc⟩
  | cons t ts ih =>
      obtain ⟨b, hb, _⟩ := h t (List.mem_cons_self t ts)
      obtain ⟨c, hc, hle⟩ :=
        ih (max acc b) (fun u hu => h u (List.mem_cons_of_mem t hu))
      refine ⟨c, ?_, Nat.le_trans (Nat.le_max_left acc b) hle⟩
      simp only [ty_align_max, hb, except_ok_bind]
      exact hc

/-- On the closed algebra the layout calculator's alignment succeeds and
is positive. -/
theorem ty_align_pos : ∀ ty : Ty, wf ty = true →
    ∃ a, ty_align ty = Except.ok a ∧ 0 < a := by
  intro ty
  induction ty using ty_induction with
  | hInt w =>
      intro h
      refine ⟨(w + 7) / 8, rfl, ?_⟩
      have : 1 ≤ w := by simpa [wf] using h
      omega
  | hPtr => exact fun _ => ⟨4, rfl, by omega⟩
  | hFlt => exact fun _ => ⟨4, rfl, by omega⟩
  | hDbl => exact fun _ => ⟨8, rfl, by omega⟩
  | hStr fs p ih =>
      intro h
      have hfs : ∀ t ∈ fs, wf t = true := wf_fields_mem (by simpa [wf] using h)
      cases p with
      | true => exact ⟨1, by simp [ty_align], by omega⟩
      | false =>
          obtain ⟨a, ha, hle⟩ :=
            ty_align_max_ok fs 1 (fun t ht => ih t ht (hfs t ht))
          exact ⟨a, by simpa [ty_align] using ha, by omega⟩
  | hArr e n ih =>
      intro h
      obtain ⟨a, ha, hpos⟩ := ih (by simpa [wf] using h)
      exact ⟨a, by simpa [ty_align] using ha, hpos⟩
  | hVd => intro h; simp [wf] at h
  | hOth => intro h; simp [wf] at h

/-- A field list whose members all have a size has a `mapM` of sizes. -/
theorem mapM_ty_size_ok (ts : List Ty)
    (h : ∀ t ∈ ts, ∃ s, ty_size t = Except.ok s) :
    ∃ szs, ts.mapM ty_size = Except.ok szs := by
  induction ts with
  | nil => exact ⟨[], rfl⟩
  | cons t ts ih =>
      obtain ⟨s, hs⟩ := h t (List.mem_cons_self t ts)
      obtain ⟨ss, hss⟩ := ih (fun u hu => h u (List.mem_cons_of_mem t hu))
      refine ⟨s :: ss, ?_⟩
      rw [List.mapM_cons]
      simp only [hs, hss, except_ok_bind]
      rfl

/-- The packed-struct fold computes the plain sum of the field sizes. -/
theorem ty_size_sum_spec (ts : List Ty) (szs : List Nat)
    (hm : ts.mapM ty_size = Except.ok szs) :
    ∀ acc, ty_size_sum ts acc = Except.ok (acc + szs.sum) := by
  induction ts generalizing szs with
  | nil =>
      intro acc
      simp only [List.mapM_nil] at hm
      injection hm with hm
      subst hm
      simp [ty_size_sum]
  | cons t ts ih =>
      intro acc
      rw [List.mapM_cons] at hm
      cases hts : ty_size t with
      | error e =>
          simp only [hts, except_error_bind] at hm
          exact Except.noConfusion hm
      | ok s =>
          simp only [hts, except_ok_bind] at hm
          cases hrest : ts.mapM ty_size with
          | error e =>
              simp only [hrest, except_error_bind] at hm
              exact Except.noConfusion hm
          | ok ss =>
              simp only [hrest, except_ok_bind] at hm
              injection hm with hm
              subst hm
              simp only [ty_size_sum, hts, except_ok_bind]
              rw [List.sum_cons, ← Nat.add_assoc]
              exact ih ss hrest (acc + s)

/-- The unpacked-struct fold succeeds and dominates the plain sum of the
field sizes when every field has a size and a positive alignment. -/
theorem ty_size_fields_ge (ts : List Ty) (szs : List Nat)
    (hm : ts.mapM ty_size = Except.ok szs)
    (hal : ∀ t ∈ ts, ∃ a, ty_align t = Except.ok a ∧ 0 < a) :
    ∀ acc, ∃ s, ty_size_fields ts acc = Except.ok s ∧ acc + szs.sum ≤ s := by
  induction ts generalizing szs with
  | nil =>
      intro acc
      simp only [List.mapM_nil] at hm
      injection hm with hm
      subst hm
      exact ⟨acc, rfl, by simp⟩
  | cons t ts ih =>
      intro acc
      rw [List.mapM_cons] at hm
      obtain ⟨a, ha, hapos⟩ := hal t (List.mem_cons_self t ts)
      cases hts : ty_size t with
      | error e =>
          simp only [hts, except_error_bind] at hm
          exact Except.noConfusion hm
      | ok s0 =>
          simp only [hts, except_ok_bind] at hm
          cases hrest : ts.mapM ty_size with
          | error e =>
              simp only [hrest, except_error_bind] at hm
              exact Except.noConfusion hm
          | ok ss =>
              simp only [hrest, except_ok_bind] at hm
              injection hm with hm
              subst hm
              obtain ⟨s, hsf, hge⟩ :=
                ih ss hrest (fun u hu => hal u (List.mem_cons_of_mem t hu))
                  (align_up_to acc a + s0)
              refine ⟨s, ?_, ?_⟩
              · simp only [ty_size_fields, ha, hts, except_ok_bind]
                exact hsf
              · have h1 : acc ≤ align_up_to acc a := le_align_up_to acc a hapos
                simp only [List.sum_cons]
                omega

/-- On the closed algebra the layout calculator's size succeeds. -/
theorem ty_size_ok : ∀ ty : Ty, wf ty = true →
    ∃ s, ty_size ty = Except.ok s := by
  intro ty
  induction ty using ty_induction with
  | hInt w => exact fun _ => ⟨(w + 7) / 8, rfl⟩
  | hPtr => exact fun _ => ⟨4, rfl⟩
  | hFlt => exact fun _ => ⟨4, rfl⟩
  | hDbl => exact fun _ => ⟨8, rfl⟩
  | hStr fs p ih =>
      intro h
      have hfs : ∀ t ∈ fs, wf t = true := wf_fields_mem (by simpa [wf] using h)
      obtain ⟨szs, hm⟩ := mapM_ty_size_ok fs (fun t ht => ih t ht (hfs t ht))
      cases p with
      | true =>
          exact ⟨szs.sum, by simpa [ty_size] using ty_size_sum_spec fs szs hm 0⟩
      | false =>
          have hal : ∀ t ∈ fs, ∃ a, ty_align t = Except.ok a ∧ 0 < a :=
            fun t ht => ty_align_pos t (hfs t ht)
          obtain ⟨s0, hsf, _⟩ := ty_size_fields_ge fs szs hm hal 0
          obtain ⟨al, hali, _⟩ := ty_align_pos (Ty.Struct fs false) h
          refine ⟨align_up_to s0 al, ?_⟩
          simp only [ty_size, Bool.false_eq_true, if_false, hsf, hali, except_ok_bind]
  | hArr e n ih =>
      intro h
      obtain ⟨s, hs⟩ := ih (by simpa [wf] using h)
      refine ⟨n * s, ?_⟩
      simp only [ty_size, hs, except_ok_bind]
  | hVd => intro h; simp [wf] at h
  | hOth => intro h; simp [wf] at h

/-- `is_i1` recognises exactly the 1-bit integer type. -/
theorem is_i1_iff : ∀ ty : Ty, is_i1 ty = true ↔ ty = Ty.Integer 1
  | Ty.Integer 0 => by simp [is_i1]
  | Ty.Integer 1 => by simp [is_i1]
  | Ty.Integer (n + 2) => by
      constructor
      · intro h; exact absurd h (by simp [is_i1])
      · intro h
        exact absurd (Ty.Integer.injEq _ _ ▸ congrArg (fun t => t) h)
          (by intro hh; cases hh)
  | Ty.Pointer => by simp [is_i1]
  | Ty.Float => by simp [is_i1]
  | Ty.Double => by simp [is_i1]
  | Ty.Struct fs p => by simp [is_i1]
  | Ty.Array e n => by simp [is_i1]
  | Ty.Void => by simp [is_i1]
  | Ty.Other => by simp [is_i1]

/-- The pad slot appears exactly when the mask test fires, and for the
power-of-two alignments 4 and 8 exactly when the offset is not a
multiple of the alignment. -/
theorem padding_ty_spec (a off : Nat) :
    (padding_ty a off = some (Ty.Integer 32) ↔ (a - 1) &&& off ≠ 0) ∧
    (a = 4 ∨ a = 8 →
      (padding_ty a off = some (Ty.Integer 32) ↔ ¬ a ∣ off)) := by
  have hbase : padding_ty a off = some (Ty.Integer 32) ↔ (a - 1) &&& off ≠ 0 := by
    unfold padding_ty
    split
    · next h => simp; omega
    · next h => simp; omega
  refine ⟨hbase, ?_⟩
  rintro (rfl | rfl)
  · rw [hbase, Nat.dvd_iff_mod_eq_zero,
      show (4 : Nat) - 1 = 3 from rfl, mask_three_eq_mod]
  · rw [hbase, Nat.dvd_iff_mod_eq_zero,
      show (8 : Nat) - 1 = 7 from rfl, mask_seven_eq_mod]

/-- The classification of an argument whose size is zero: the offset is
rounded up to the clamped alignment and nothing further is added, the
cast is the empty chunk struct, and the pad follows the mask test
against the clamped alignment. -/
theorem classify_arg_zero_size (ty : Ty) (off al : Nat)
    (h0 : ty_size ty = Except.ok 0) (h1 : ty_align ty = Except.ok al)
    (hreg : is_reg_ty ty = false) :
    classify_arg_ty ty off =
      Except.ok (ArgType.direct ty (some (Ty.Struct [] false))
        (padding_ty (min (max al 4) 8) off) none,
        align_up_to off (min (max al 4) 8)) := by
  rw [classify_arg_ty]
  simp only [h0, h1, except_ok_bind, hreg, Bool.false_eq_true, if_false,
    struct_ty, Nat.zero_mul, align_up_to_zero, Nat.zero_div, Nat.add_zero]
  rfl

/-- The pad produced at clamped alignment 4 is governed by the offset's
remainder modulo 4. -/
theorem padding_ty_four (off : Nat) :
    padding_ty 4 off =
      (if off % 4 = 0 then none else some (Ty.Integer 32)) := by
  unfold padding_ty
  rw [show (4 : Nat) - 1 = 3 from rfl, mask_three_eq_mod]
  by_cases h : off % 4 = 0
  · simp [h]
  · simp [h, Nat.pos_of_ne_zero h]

end HelperLemmas

section Claims

/-- Claim C1 (corrected): for an aggregate (non-register-passable)
argument the classifier attaches the 32-bit pad exactly when the mask
test `(align - 1) &&& orig_offset` is nonzero, where `align` is the
clamped alignment; for the power-of-two clamped alignments 4 and 8 this
coincides with "`orig_offset` is not a multiple of the clamped
alignment", but not for the non-power-of-two clamped alignments 5, 6, 7
that structs of wide integer fields can produce. -/
theorem classify_arg_pad_iff_mask (ty : Ty) (off sz al : Nat)
    (hreg : is_reg_ty ty = false)
    (hsz : ty_size ty = Except.ok sz) (hal : ty_align ty = Except.ok al) :
    ∃ arg off2, classify_arg_ty ty off = Except.ok (arg, off2) ∧
      (arg.pad = some (Ty.Integer 32) ↔ (min (max al 4) 8 - 1) &&& off ≠ 0) ∧
      (min (max al 4) 8 = 4 ∨ min (max al 4) 8 = 8 →
        (arg.pad = some (Ty.Integer 32) ↔ ¬ min (max al 4) 8 ∣ off)) := by
  refine ⟨ArgType.direct ty (some (Ty.Struct (coerce_to_int (sz * 8)) false))
      (padding_ty (min (max al 4) 8) off) none,
    align_up_to off (min (max al 4) 8) +
      align_up_to (sz * 8) (min (max al 4) 8 * 8) / 8,
    ?_, ?_, ?_⟩
  · rw [classify_arg_ty]
    simp [hsz, hal, hreg, struct_ty]
  · exact (padding_ty_spec (min (max al 4) 8) off).1
  · exact (padding_ty_spec (min (max al 4) 8) off).2

/-- Witness for C1 at the struct `{ptr}` classified from offset 2. -/
theorem classify_arg_pad_iff_mask_witness :
    ∃ arg off2,
      classify_arg_ty (Ty.Struct [Ty.Pointer] false) 2 = Except.ok (arg, off2) ∧
      (arg.pad = some (Ty.Integer 32) ↔ (min (max 4 4) 8 - 1) &&& 2 ≠ 0) ∧
      (min (max 4 4) 8 = 4 ∨ min (max 4 4) 8 = 8 →
        (arg.pad = some (Ty.Integer 32) ↔ ¬ min (max 4 4) 8 ∣ 2)) :=
  classify_arg_pad_iff_mask (Ty.Struct [Ty.Pointer] false) 2 4 4 rfl rfl rfl

/-- Counterexample to C1 as stated: the struct `{i33}` has natural and
clamped alignment 5, and at `orig_offset = 5` — a multiple of the
clamped alignment — the classifier still attaches a 32-bit pad, because
`(5 - 1) &&& 5 = 4 ≠ 0`. -/
theorem pad_at_offset_multiple_of_clamped_align :
    ty_align (Ty.Struct [Ty.Integer 33] false) = Except.ok 5 ∧
    min (max 5 4) 8 = 5 ∧
    5 % 5 = 0 ∧
    classify_arg_ty (Ty.Struct [Ty.Integer 33] false) 5 =
      Except.ok (ArgType.direct (Ty.Struct [Ty.Integer 33] false)
        (some (Ty.Struct [Ty.Integer 32, Ty.Integer 8] false))
        (some (Ty.Integer 32)) none, 10) :=
  ⟨rfl, rfl, rfl, rfl⟩

/-- Claim C2 (corrected): the register-eligibility predicate does not
raise the fatal error on kinds outside the closed algebra — it returns
`false` for every variant other than the four scalar kinds; the fatal
"unhandled type" error is raised only by the layout calculator. -/
theorem is_reg_ty_false_outside_scalars :
    (∀ ty : Ty, is_reg_ty ty = true ↔
      ((∃ w, ty = Ty.Integer w) ∨ ty = Ty.Pointer ∨ ty = Ty.Float ∨
        ty = Ty.Double)) ∧
    ty_align Ty.Other = Except.error "ty_size: unhandled type" ∧
    ty_size Ty.Other = Except.error "ty_size: unhandled type" ∧
    ty_align Ty.Void = Except.error "ty_size: unhandled type" ∧
    ty_size Ty.Void = Except.error "ty_size: unhandled type" := by
  refine ⟨fun ty => ?_, rfl, rfl, rfl, rfl⟩
  cases ty <;> simp [is_reg_ty]

/-- Counterexample to C2 as stated: applied to a kind outside the closed
algebra the predicate returns the result `false` — it does not abort —
and return classification even completes on such a type. -/
theorem is_reg_ty_other_returns_result :
    is_reg_ty Ty.Other = false ∧
    classify_ret_ty Ty.Other = ArgType.indirect Ty.Other (some Attr.StructRet) :=
  ⟨rfl, rfl⟩

/-- Claim C3 (confirmed): a non-register-passable meaningful return
classifies indirect with the struct-return marker and seeds the running
argument offset to 4; a scalar or void return never carries the marker
and seeds the offset to 0. -/
theorem compute_abi_info_sret_offset (atys : List Ty) (rty : Ty) :
    (is_reg_ty rty = false →
      classify_ret_ty rty = ArgType.indirect rty (some Attr.StructRet) ∧
      compute_abi_info atys rty true =
        Except.map
          (fun p => FnType.mk p.1 (ArgType.indirect rty (some Attr.StructRet)))
          (classify_args atys 4)) ∧
    (is_reg_ty rty = true →
      (classify_ret_ty rty).is_indirect = false ∧
      (classify_ret_ty rty).attr ≠ some Attr.StructRet ∧
      compute_abi_info atys rty true =
        Except.map (fun p => FnType.mk p.1 (classify_ret_ty rty))
          (classify_args atys 0)) ∧
    compute_abi_info atys rty false =
      Except.map (fun p => FnType.mk p.1 (ArgType.direct Ty.Void none none none))
        (classify_args atys 0) ∧
    (ArgType.direct Ty.Void none none none).is_indirect = false := by
  refine ⟨?_, ?_, ?_, rfl⟩
  · intro h
    have hret : classify_ret_ty rty = ArgType.indirect rty (some Attr.StructRet) := by
      simp [classify_ret_ty, h]
    refine ⟨hret, ?_⟩
    rw [compute_abi_info]
    simp only [if_true, hret]
    cases hc : classify_args atys 4 with
    | ok p =>
        obtain ⟨args, offl⟩ := p
        simp [hc, ArgType.is_indirect, ArgType.indirect, Except.map]
    | error e =>
        simp [hc, ArgType.is_indirect, ArgType.indirect, Except.map]
  · intro h
    have hni : (classify_ret_ty rty).is_indirect = false := by
      simp only [classify_ret_ty, h, if_true]
      rfl
    refine ⟨hni, ?_, ?_⟩
    · simp only [classify_ret_ty, h, if_true]
      cases hi : is_i1 rty <;> simp [ArgType.direct]
    · rw [compute_abi_info]
      simp only [if_true, hni]
      cases hc : classify_args atys 0 with
      | ok p =>
          obtain ⟨args, offl⟩ := p
          simp [hc, Except.map]
      | error e =>
          simp [hc, Except.map]
  · rw [compute_abi_info]
    simp only [Bool.false_eq_true, if_false]
    cases hc : classify_args atys 0 with
    | ok p =>
        obtain ⟨args, offl⟩ := p
        simp [hc, ArgType.is_indirect, ArgType.direct, Except.map]
    | error e =>
        simp [hc, ArgType.is_indirect, ArgType.direct, Except.map]

/-- Claim C4 (confirmed): the coercion builder emits chunks whose bit
widths sum to the requested size, whose count is the ceiling of the size
divided by 32, all 32-bit except a final chunk of the remainder width
when the remainder is nonzero, and emits nothing exactly for size 0. -/
theorem coerce_to_int_spec (size : Nat) :
    ((coerce_to_int size).map chunk_width).sum = size ∧
    (coerce_to_int size).length = (size + 31) / 32 ∧
    (∀ t ∈ (coerce_to_int size).dropLast, t = Ty.Integer 32) ∧
    (size % 32 ≠ 0 →
      (coerce_to_int size).getLast? = some (Ty.Integer (size % 32))) ∧
    (coerce_to_int size = [] ↔ size = 0) := by
  unfold coerce_to_int
  by_cases hr : size % 32 > 0
  · simp only [if_pos hr]
    refine ⟨?_, ?_, ?_, ?_, ?_⟩
    · simp only [List.map_append, List.map_replicate, List.sum_append,
        List.sum_replicate, smul_eq_mul, chunk_width, List.map_cons,
        List.map_nil, List.sum_cons, List.sum_nil]
      omega
    · simp only [List.length_append, List.length_replicate, List.length_cons,
        List.length_nil]
      omega
    · intro t ht
      rw [List.dropLast_concat] at ht
      exact List.eq_of_mem_replicate ht
    · intro _
      exact List.getLast?_concat _
    · constructor
      · intro h
        rcases List.append_eq_nil.mp h with ⟨_, h2⟩
        exact List.noConfusion h2
      · intro h
        omega
  · simp only [if_neg hr, List.append_nil]
    refine ⟨?_, ?_, ?_, ?_, ?_⟩
    · simp only [List.map_replicate, List.sum_replicate, smul_eq_mul, chunk_width]
      omega
    · simp only [List.length_replicate]
      omega
    · intro t ht
      exact List.eq_of_mem_replicate (List.dropLast_subset _ ht)
    · intro h
      exact absurd (by omega : size % 32 = 0) h
    · rw [List.replicate_eq_nil_iff]
      omega

/-- Claim C5 (confirmed): a packed struct's size is exactly the sum of
its field sizes and its alignment is 1; an unpacked struct's size
dominates the sum of its field sizes and is a multiple of the struct's
alignment. -/
theorem struct_layout (fields : List Ty) (szs : List Nat)
    (hw : wf_fields fields = true)
    (hm : fields.mapM ty_size = Except.ok szs) :
    ty_size (Ty.Struct fields true) = Except.ok szs.sum ∧
    ty_align (Ty.Struct fields true) = Except.ok 1 ∧
    ∃ sz al, ty_size (Ty.Struct fields false) = Except.ok sz ∧
      ty_align (Ty.Struct fields false) = Except.ok al ∧
      szs.sum ≤ sz ∧ al ∣ sz := by
  have hwmem := wf_fields_mem hw
  have hal : ∀ t ∈ fields, ∃ a, ty_align t = Except.ok a ∧ 0 < a :=
    fun t ht => ty_align_pos t (hwmem t ht)
  refine ⟨?_, by simp [ty_align], ?_⟩
  · have h := ty_size_sum_spec fields szs hm 0
    simpa [ty_size] using h
  · obtain ⟨s0, hsf, hge⟩ := ty_size_fields_ge fields szs hm hal 0
    have hwstruct : wf (Ty.Struct fields false) = true := by simpa [wf] using hw
    obtain ⟨al, hali, halpos⟩ := ty_align_pos (Ty.Struct fields false) hwstruct
    refine ⟨align_up_to s0 al, al, ?_, hali, ?_, align_up_to_dvd s0 al⟩
    · simp only [ty_size, Bool.false_eq_true, if_false, hsf, hali, except_ok_bind]
    · exact Nat.le_trans (by omega) (le_align_up_to s0 al halpos)

/-- Witness for C5 at the struct `{i8, i32}` with field sizes 1 and 4. -/
theorem struct_layout_witness :
    ty_size (Ty.Struct [Ty.Integer 8, Ty.Integer 32] true) =
      Except.ok ([1, 4] : List Nat).sum ∧
    ty_align (Ty.Struct [Ty.Integer 8, Ty.Integer 32] true) = Except.ok 1 ∧
    ∃ sz al,
      ty_size (Ty.Struct [Ty.Integer 8, Ty.Integer 32] false) = Except.ok sz ∧
      ty_align (Ty.Struct [Ty.Integer 8, Ty.Integer 32] false) = Except.ok al ∧
      ([1, 4] : List Nat).sum ≤ sz ∧ al ∣ sz :=
  struct_layout [Ty.Integer 8, Ty.Integer 32] [1, 4] rfl rfl

/-- Claim C6 (confirmed): on the closed algebra the argument classifier
always returns a direct classification — never indirect — and an
aggregate carries the coercion chunks for its total bit size as the cast
type. -/
theorem classify_arg_direct (ty : Ty) (off : Nat) (hw : wf ty = true) :
    ∃ arg off2, classify_arg_ty ty off = Except.ok (arg, off2) ∧
      arg.kind = ArgKind.direct ∧
      (is_reg_ty ty = false →
        ∃ sz, ty_size ty = Except.ok sz ∧
          arg.cast = some (Ty.Struct (coerce_to_int (sz * 8)) false)) := by
  obtain ⟨sz, hsz⟩ := ty_size_ok ty hw
  obtain ⟨al, hal, _⟩ := ty_align_pos ty hw
  cases hreg : is_reg_ty ty with
  | true =>
      refine ⟨ArgType.direct ty none none
          (if is_i1 ty then some Attr.ZExt else none),
        align_up_to off (min (max al 4) 8) +
          align_up_to (sz * 8) (min (max al 4) 8 * 8) / 8, ?_, rfl, ?_⟩
      · rw [classify_arg_ty]
        simp [hsz, hal, hreg]
      · intro hcontra
        exact Bool.noConfusion hcontra
  | false =>
      refine ⟨ArgType.direct ty (some (Ty.Struct (coerce_to_int (sz * 8)) false))
          (padding_ty (min (max al 4) 8) off) none,
        align_up_to off (min (max al 4) 8) +
          align_up_to (sz * 8) (min (max al 4) 8 * 8) / 8,
        ?_, rfl, fun _ => ⟨sz, hsz, rfl⟩⟩
      rw [classify_arg_ty]
      simp [hsz, hal, hreg, struct_ty]

/-- Witness for C6 at the struct `{f32}` classified from offset 0. -/
theorem classify_arg_direct_witness :
    ∃ arg off2,
      classify_arg_ty (Ty.Struct [Ty.Float] false) 0 = Except.ok (arg, off2) ∧
      arg.kind = ArgKind.direct ∧
      (is_reg_ty (Ty.Struct [Ty.Float] false) = false →
        ∃ sz, ty_size (Ty.Struct [Ty.Float] false) = Except.ok sz ∧
          arg.cast = some (Ty.Struct (coerce_to_int (sz * 8)) false)) :=
  classify_arg_direct (Ty.Struct [Ty.Float] false) 0 rfl

/-- Claim C7 (confirmed): the zero-extend attribute is attached to a
classified return or argument exactly when the classified type is the
1-bit integer type. -/
theorem zext_attr_iff_i1 (ty : Ty) (off : Nat) :
    ((classify_ret_ty ty).attr = some Attr.ZExt ↔ ty = Ty.Integer 1) ∧
    (∀ arg off2, classify_arg_ty ty off = Except.ok (arg, off2) →
      (arg.attr = some Attr.ZExt ↔ ty = Ty.Integer 1)) := by
  have hi1 := is_i1_iff ty
  have hattr : (if is_i1 ty then some Attr.ZExt else none) = some Attr.ZExt ↔
      ty = Ty.Integer 1 := by
    cases hi : is_i1 ty with
    | true => simp [hi1.mp hi]
    | false =>
        simp only [Bool.false_eq_true, if_false]
        constructor
        · intro h
          exact Option.noConfusion h
        · intro h
          rw [← hi1, hi] at h
          exact Bool.noConfusion h
  constructor
  · unfold classify_ret_ty
    cases hreg : is_reg_ty ty with
    | true =>
        simp only [if_true]
        exact hattr
    | false =>
        simp only [Bool.false_eq_true, if_false]
        constructor
        · intro h
          simp only [ArgType.indirect] at h
          injection h with h
          exact Attr.noConfusion h
        · intro h
          subst h
          exact Bool.noConfusion hreg
  · intro arg off2 h
    rw [classify_arg_ty] at h
    cases hsz : ty_size ty with
    | error e =>
        rw [hsz] at h
        exact Except.noConfusion h
    | ok sz =>
        simp only [hsz, except_ok_bind] at h
        cases hal : ty_align ty with
        | error e =>
            rw [hal] at h
            exact Except.noConfusion h
        | ok al =>
            simp only [hal, except_ok_bind] at h
            cases hreg : is_reg_ty ty with
            | true =>
                simp only [hreg, if_true] at h
                injection h with h
                injection h with h1 h2
                subst h1
                exact hattr
            | false =>
                simp only [hreg, Bool.false_eq_true, if_false, struct_ty, hsz,
                  except_ok_bind] at h
                injection h with h
                injection h with h1 h2
                subst h1
                constructor
                · intro hc
                  exact Option.noConfusion hc
                · intro hc
                  subst hc
                  exact Bool.noConfusion hreg

/-- Claim C8 (confirmed): the effective alignment used for offset
advancement is the natural alignment clamped into `[4, 8]`, and the
offset advances by rounding up to that alignment and then adding the
size in bits rounded up to the alignment in bits, divided back to
bytes. -/
theorem classify_arg_offset_advance (ty : Ty) (off sz al : Nat)
    (hsz : ty_size ty = Except.ok sz) (hal : ty_align ty = Except.ok al) :
    4 ≤ min (max al 4) 8 ∧ min (max al 4) 8 ≤ 8 ∧
    ∃ arg, classify_arg_ty ty off =
      Except.ok (arg, align_up_to off (min (max al 4) 8) +
        align_up_to (sz * 8) (min (max al 4) 8 * 8) / 8) := by
  refine ⟨by omega, by omega, ?_⟩
  rw [classify_arg_ty]
  simp only [hsz, hal, except_ok_bind]
  cases hreg : is_reg_ty ty with
  | true =>
      refine ⟨ArgType.direct ty none none
        (if is_i1 ty then some Attr.ZExt else none), ?_⟩
      simp [hreg]
  | false =>
      refine ⟨ArgType.direct ty (some (Ty.Struct (coerce_to_int (sz * 8)) false))
        (padding_ty (min (max al 4) 8) off) none, ?_⟩
      simp [hreg, struct_ty, hsz]

/-- Witness for C8 at a `double` argument classified from offset 2. -/
theorem classify_arg_offset_advance_witness :
    4 ≤ min (max 8 4) 8 ∧ min (max 8 4) 8 ≤ 8 ∧
    ∃ arg, classify_arg_ty Ty.Double 2 =
      Except.ok (arg, align_up_to 2 (min (max 8 4) 8) +
        align_up_to (8 * 8) (min (max 8 4) 8 * 8) / 8) :=
  classify_arg_offset_advance Ty.Double 2 8 8 rfl rfl

/-- Claim C9 (confirmed): on the closed algebra — nested structs and
arrays included, and structs with no fields — the layout calculator's
alignment is a positive integer, never 0, so the divisions by the
alignment inside `align_up_to` are by a nonzero value. -/
theorem ty_align_never_zero (ty : Ty) (hw : wf ty = true) :
    ∃ a, ty_align ty = Except.ok a ∧ 0 < a :=
  ty_align_pos ty hw

/-- Witness for C9 at a struct with no fields. -/
theorem ty_align_never_zero_witness :
    ∃ a, ty_align (Ty.Struct [] false) = Except.ok a ∧ 0 < a :=
  ty_align_never_zero (Ty.Struct [] false) rfl

/-- Claim C10 (corrected): a zero-sized aggregate argument classifies
direct with the empty chunk struct as cast, and the offset is rounded up
to the clamped alignment with nothing further added.  For an empty
struct the clamped alignment is 4 and the 32-bit pad appears exactly
when the offset is not a multiple of 4; for a zero-length array the
clamped alignment is the element's clamped alignment — which can be 8 —
and the pad follows the mask test against that alignment. -/
theorem zero_sized_arg_classification (off : Nat) (packed : Bool) (elt : Ty)
    (s al : Nat)
    (hsz : ty_size elt = Except.ok s) (hal : ty_align elt = Except.ok al) :
    classify_arg_ty (Ty.Struct [] packed) off =
      Except.ok (ArgType.direct (Ty.Struct [] packed) (some (Ty.Struct [] false))
        (if off % 4 = 0 then none else some (Ty.Integer 32)) none,
        align_up_to off 4) ∧
    coerce_to_int 0 = [] ∧
    classify_arg_ty (Ty.Array elt 0) off =
      Except.ok (ArgType.direct (Ty.Array elt 0) (some (Ty.Struct [] false))
        (padding_ty (min (max al 4) 8) off) none,
        align_up_to off (min (max al 4) 8)) := by
  refine ⟨?_, rfl, ?_⟩
  · have h := classify_arg_zero_size (Ty.Struct [] packed) off 1
      (by cases packed <;> rfl) (by cases packed <;> rfl)
      (by cases packed <;> rfl)
    rw [show min (max 1 4) 8 = 4 from rfl, padding_ty_four] at h
    exact h
  · have h0 : ty_size (Ty.Array elt 0) = Except.ok 0 := by
      rw [ty_size]
      simp [hsz]
    have h1 : ty_align (Ty.Array elt 0) = Except.ok al := by
      rw [ty_align]
      exact hal
    exact classify_arg_zero_size (Ty.Array elt 0) off al h0 h1 rfl

/-- Witness for C10 at a packed empty struct and a zero-length array of
`f32`, both classified from offset 6. -/
theorem zero_sized_arg_classification_witness :
    classify_arg_ty (Ty.Struct [] true) 6 =
      Except.ok (ArgType.direct (Ty.Struct [] true) (some (Ty.Struct [] false))
        (if 6 % 4 = 0 then none else some (Ty.Integer 32)) none,
        align_up_to 6 4) ∧
    coerce_to_int 0 = [] ∧
    classify_arg_ty (Ty.Array Ty.Float 0) 6 =
      Except.ok (ArgType.direct (Ty.Array Ty.Float 0) (some (Ty.Struct [] false))
        (padding_ty (min (max 4 4) 8) 6) none,
        align_up_to 6 (min (max 4 4) 8)) :=
  zero_sized_arg_classification 6 true Ty.Float 4 4 rfl rfl

/-- Counterexample to C10 as stated: a zero-length array of `double`
clamps to alignment 8, not 4, so at offset 4 — a multiple of 4 — the
classifier still inserts a 32-bit pad and rounds the offset up to 8. -/
theorem zero_length_array_pad_and_advance :
    4 % 4 = 0 ∧
    classify_arg_ty (Ty.Array Ty.Double 0) 4 =
      Except.ok (ArgType.direct (Ty.Array Ty.Double 0)
        (some (Ty.Struct [] false)) (some (Ty.Integer 32)) none, 8) :=
  ⟨rfl, rfl⟩

end Claims

end Cabi
